import Mathlib

/-!
A verification development for the query orchestration and caching layer of a
document-intelligence RAG service.  The TypeScript sources
(`cache-strategy.ts`, `hybrid-search.ts`, `query-router.ts`, `generator.ts`,
`config.ts`) are embedded shallowly: pure functions become Lean functions,
module-level mutable state (cache metrics, the Redis keyspace, the
conversation table) becomes explicit state passing, and the external
collaborators (the search backend, the generation backend, `JSON`
encode/decode) become explicit parameters.  JavaScript strings are modelled
through `String`/`List Char` (code-unit level operations such as `slice`
operate on `String.data`), JavaScript numbers used as scores are modelled as
exact rationals (every constant appearing in the code, such as the re-rank
penalties 0.7 and 0.9, is exactly representable), and counters are `Nat`/`Int`.
-/

set_option maxRecDepth 16384

namespace Rag

/-! Section: Query normalizer (`normalizeQuery`, cache-strategy.ts)

The source pipeline is
`query.toLowerCase().replace(/[^\w\s]/g, "").split(/\s+/)
      .filter(w => w.length > 1 && !STOP_WORDS.has(w)).sort().join(" ")`.

`\w` is the ASCII class `[A-Za-z0-9_]` and the whitespace characters that
occur are the ASCII ones modelled by `Char.isWhitespace`; `toLowerCase` on
these characters is `Char.toLower`.  Splitting is modelled with every
whitespace character acting as a separator; this differs from `/\s+/` only in
producing extra empty tokens, all of which are discarded by the length-at-
least-two filter, exactly as the empty token produced by a leading separator
is discarded in the source.  The default `sort()` compares strings
lexicographically by code unit, and is stable; a stable sort is extensionally
determined by the order, so it is modelled by insertion sort.
-/

/-- JS word characters, the regex class `\w`: ASCII letters, digits, underscore. -/
def isWordChar (c : Char) : Bool := c.isAlpha || c.isDigit || c == '_'

/-- Characters surviving `replace(/[^\w\s]/g, "")`: word characters and whitespace. -/
def keepChar (c : Char) : Bool := isWordChar c || c.isWhitespace

/-- Split a character list at every whitespace character. -/
def splitWs : List Char → List (List Char)
  | [] => [[]]
  | c :: cs =>
    if c.isWhitespace then [] :: splitWs cs
    else
      match splitWs cs with
      | [] => [[c]]
      | t :: ts => (c :: t) :: ts

/-- The stop-word set of cache-strategy.ts, verbatim. -/
def STOP_WORDS : List String :=
  ["a", "an", "and", "are", "as", "at", "be", "by", "can", "do",
   "for", "from", "has", "have", "how", "i", "in", "is", "it",
   "me", "my", "of", "on", "or", "our", "should", "so", "that",
   "the", "their", "them", "they", "this", "to", "was", "we",
   "what", "when", "where", "which", "who", "will", "with", "you",
   "your", "does", "did", "would", "could"]

/-- The token filter: `w.length > 1 && !STOP_WORDS.has(w)`. -/
def goodWord (w : List Char) : Bool :=
  decide (w.length > 1) && !(STOP_WORDS.contains (String.mk w))

/-- Lexicographic comparison of strings by code unit, the order used by the
default JS `sort()` on strings. -/
def tokenLe : List Char → List Char → Bool
  | [], _ => true
  | _ :: _, [] => false
  | a :: as, b :: bs =>
    if a.toNat < b.toNat then true
    else if b.toNat < a.toNat then false
    else tokenLe as bs

/-- The relation `tokenLe` as a decidable relation, for `List.insertionSort`. -/
def tokenRel (a b : List Char) : Prop := tokenLe a b = true

instance : DecidableRel tokenRel := fun a b =>
  inferInstanceAs (Decidable (tokenLe a b = true))

/-- The model of `join(" ")`. -/
def joinTokens : List (List Char) → List Char
  | [] => []
  | [t] => t
  | t :: ts => t ++ ' ' :: joinTokens ts

/-- The normalization pipeline on character lists. -/
def normalizeData (cs : List Char) : List Char :=
  joinTokens (List.insertionSort tokenRel
    (List.filter goodWord (splitWs (List.filter keepChar (cs.map Char.toLower)))))

/-- The function `normalizeQuery` of cache-strategy.ts. -/
def normalizeQuery (query : String) : String :=
  String.mk (normalizeData query.data)

/-! Section: SHA-256 (model of Node `createHash("sha256")`)

The cache key applies a SHA-256 digest to a canonical input string.  The
digest is the standard FIPS 180-4 algorithm over the UTF-8 bytes of the
input, implemented here over `Nat` with explicit reduction modulo `2 ^ 32`.
-/

/-- Truncation to a 32-bit word. -/
def w32 (n : Nat) : Nat := n % 4294967296

/-- Rotation of a 32-bit word to the right by n bits. -/
def rotr (x n : Nat) : Nat := w32 ((x >>> n) ||| (x <<< (32 - n)))

def shaCh (x y z : Nat) : Nat := (x &&& y) ^^^ ((x ^^^ 4294967295) &&& z)

def shaMaj (x y z : Nat) : Nat := (x &&& y) ^^^ (x &&& z) ^^^ (y &&& z)

def bsig0 (x : Nat) : Nat := rotr x 2 ^^^ rotr x 13 ^^^ rotr x 22

def bsig1 (x : Nat) : Nat := rotr x 6 ^^^ rotr x 11 ^^^ rotr x 25

def ssig0 (x : Nat) : Nat := rotr x 7 ^^^ rotr x 18 ^^^ (x >>> 3)

def ssig1 (x : Nat) : Nat := rotr x 17 ^^^ rotr x 19 ^^^ (x >>> 10)

/-- The 64 round constants of SHA-256, written in decimal. -/
def shaK : List Nat :=
  [1116352408, 1899447441, 3049323471, 3921009573, 961987163,
   1508970993, 2453635748, 2870763221, 3624381080, 310598401,
   607225278, 1426881987, 1925078388, 2162078206, 2614888103,
   3248222580, 3835390401, 4022224774, 264347078, 604807628,
   770255983, 1249150122, 1555081692, 1996064986, 2554220882,
   2821834349, 2952996808, 3210313671, 3336571891, 3584528711,
   113926993, 338241895, 666307205, 773529912, 1294757372,
   1396182291, 1695183700, 1986661051, 2177026350, 2456956037,
   2730485921, 2820302411, 3259730800, 3345764771, 3516065817,
   3600352804, 4094571909, 275423344, 430227734, 506948616,
   659060556, 883997877, 958139571, 1322822218, 1537002063,
   1747873779, 1955562222, 2024104815, 2227730452, 2361852424,
   2428436474, 2756734187, 3204031479, 3329325298]

/-- The initial hash state of SHA-256, written in decimal. -/
def shaH0 : List Nat :=
  [1779033703, 3144134277, 1013904242, 2773480762, 1359893119,
   2600822924, 528734635, 1541459225]

/-- UTF-8 encoding of one character. -/
def utf8Bytes (c : Char) : List Nat :=
  let n := c.toNat
  if n < 128 then [n]
  else if n < 2048 then [192 + n / 64, 128 + n % 64]
  else if n < 65536 then [224 + n / 4096, 128 + n / 64 % 64, 128 + n % 64]
  else [240 + n / 262144, 128 + n / 4096 % 64, 128 + n / 64 % 64, 128 + n % 64]

/-- UTF-8 bytes of a string. -/
def strBytes (s : String) : List Nat := (s.data.map utf8Bytes).flatten

/-- Big-endian 8-byte encoding. -/
def be64 (n : Nat) : List Nat :=
  [(n >>> 56) % 256, (n >>> 48) % 256, (n >>> 40) % 256, (n >>> 32) % 256,
   (n >>> 24) % 256, (n >>> 16) % 256, (n >>> 8) % 256, n % 256]

/-- SHA-256 padding: append `0x80`, zeros, and the 64-bit message bit length. -/
def padBytes (bytes : List Nat) : List Nat :=
  let len := bytes.length
  let zeros := (119 - len % 64) % 64
  bytes ++ 128 :: (List.replicate zeros 0 ++ be64 (len * 8))

/-- Big-endian 32-bit words from bytes. -/
def toWords : List Nat → List Nat
  | b0 :: b1 :: b2 :: b3 :: rest => (((b0 * 256 + b1) * 256 + b2) * 256 + b3) :: toWords rest
  | _ => []

/-- Chunks of 16 words, with a structural fuel so that the kernel can
evaluate it. -/
def blocksOfAux : Nat → List Nat → List (List Nat)
  | 0, _ => []
  | _, [] => []
  | fuel + 1, word :: rest => (word :: rest).take 16 :: blocksOfAux fuel (rest.drop 15)

def blocksOf (ws : List Nat) : List (List Nat) := blocksOfAux ws.length ws

/-- One message-schedule extension step: append `W[t]` for the next `t`. -/
def extendOnce (w : List Nat) : List Nat :=
  let k := w.length
  w ++ [w32 (ssig1 (w.getD (k - 2) 0) + w.getD (k - 7) 0 + ssig0 (w.getD (k - 15) 0) + w.getD (k - 16) 0)]

def extendN : Nat → List Nat → List Nat
  | 0, w => w
  | n + 1, w => extendN n (extendOnce w)

/-- One compression round.  The state is the eight working variables. -/
def roundStep (st : List Nat) (kw : Nat × Nat) : List Nat :=
  match st with
  | [a, b, c, d, e, f, g, h] =>
    let t1 := w32 (h + bsig1 e + shaCh e f g + kw.1 + kw.2)
    let t2 := w32 (bsig0 a + shaMaj a b c)
    [w32 (t1 + t2), a, b, c, w32 (d + t1), e, f, g]
  | other => other

/-- Process one 512-bit block. -/
def processBlock (h : List Nat) (block : List Nat) : List Nat :=
  let w := extendN 48 block
  let st := (shaK.zip w).foldl roundStep h
  List.zipWith (fun x y => w32 (x + y)) h st

/-- The eight 32-bit words of the SHA-256 digest of a string. -/
def sha256Words (s : String) : List Nat :=
  (blocksOf (toWords (padBytes (strBytes s)))).foldl processBlock shaH0

def hexDigit (k : Nat) : Char :=
  if k < 10 then Char.ofNat (48 + k) else Char.ofNat (87 + k)

def hex8 (n : Nat) : List Char :=
  [hexDigit ((n >>> 28) % 16), hexDigit ((n >>> 24) % 16), hexDigit ((n >>> 20) % 16),
   hexDigit ((n >>> 16) % 16), hexDigit ((n >>> 12) % 16), hexDigit ((n >>> 8) % 16),
   hexDigit ((n >>> 4) % 16), hexDigit (n % 16)]

/-- The model of `createHash("sha256").update(s).digest("hex")`. -/
def sha256hex (s : String) : String :=
  String.mk ((sha256Words s).map hex8).flatten

/-! Section: Cache key generation (`generateCacheKey`, cache-strategy.ts) -/

/-- The first 16 hex characters of the SHA-256 digest:
`createHash("sha256").update(s).digest("hex").slice(0, 16)`. -/
def strTake (n : Nat) (s : String) : String := String.mk (s.data.take n)

def digest16 (s : String) : String := strTake 16 (sha256hex s)

/-- The optional filters object.  All three fields are optional in the
TypeScript interface; `nResults` is carried along (it is part of
`SearchFilters`) and ignored by the key generator, as in the source. -/
structure SearchFilters where
  category : Option String
  docName : Option String
  nResults : Option Nat
deriving DecidableEq, Repr

/-- The filters object `{}` with no field set (the default parameter of
`hybridSearch`). -/
def emptyFilters : SearchFilters := { category := none, docName := none, nResults := none }

/-- The function `generateCacheKey`, parameterized by the digest so that properties of the
key can be separated from properties of the hash.  `filters.category || ""`
yields `""` both for an absent and for an empty-string field, which for
string values is exactly `Option.getD ""`. -/
def generateCacheKeyWith (digest : String → String) (query : String)
    (filters : Option SearchFilters) : String :=
  let normalized := normalizeQuery query
  let filterStr := match filters with
    | none => ""
    | some f => ":" ++ f.category.getD "" ++ ":" ++ f.docName.getD ""
  let input := "rag:" ++ normalized ++ filterStr
  "rag:query:" ++ digest input

/-- The canonical digest input of `generateCacheKey`. -/
def cacheKeyInput (query : String) (filters : Option SearchFilters) : String :=
  let filterStr := match filters with
    | none => ""
    | some f => ":" ++ f.category.getD "" ++ ":" ++ f.docName.getD ""
  "rag:" ++ normalizeQuery query ++ filterStr

/-- The function `generateCacheKey` of cache-strategy.ts. -/
def generateCacheKey (query : String) (filters : Option SearchFilters) : String :=
  generateCacheKeyWith digest16 query filters

/-! Section: TTL strategy (`getTtlForCategory`, cache-strategy.ts)

`config.redis.cacheTtlSeconds` comes from the `CACHE_TTL_SECONDS` environment
variable with default 3600; it is modelled as an explicit `baseTtl`
parameter, instantiated with the default where a claim speaks of the
configured value.  `Math.floor(baseTtl / 2)` on naturals is `Nat` division. -/

def cacheTtlSecondsDefault : Nat := 3600

def getTtlForCategory (baseTtl : Nat) (category : Option String) : Nat :=
  match category with
  | some "hr_policy" => baseTtl * 2
  | some "it_policy" => baseTtl * 2
  | some "finance" => baseTtl * 2
  | some "meeting_notes" => baseTtl / 2
  | some "product" => baseTtl
  | some "troubleshooting" => baseTtl
  | _ => baseTtl

/-! Section: Cached responses, metrics, and cache operations (cache-strategy.ts)

The Redis keyspace is a healthy key-value store modelled by an association
list (`cacheGet` reads, `cacheSet` prepends; `List.lookup` returns the most
recent write).  `JSON.stringify`/`JSON.parse` are external and become
explicit `encode`/`decode` parameters; a stored payload on which `decode`
fails models a present-but-undecodable value. -/

structure Source where
  docName : String
  pageNumber : Nat
  chunkText : String
  score : ℚ
deriving DecidableEq, Repr

structure CachedResponse where
  answer : String
  sources : List Source
  cachedAt : String
  generationTimeMs : Nat
deriving DecidableEq, Repr

structure CacheMetrics where
  hits : Nat
  misses : Nat
  totalLatencySavedMs : Int
  errors : Nat
deriving DecidableEq, Repr

def cacheGet (cache : List (String × String)) (key : String) : Option String :=
  cache.lookup key

def cacheSet (cache : List (String × String)) (key value : String) : List (String × String) :=
  (key, value) :: cache

/-- JS truthiness of an optional string: `undefined` and `""` are falsy. -/
def isTruthy (o : Option String) : Bool :=
  match o with
  | none => false
  | some s => !(s == "")

/-- The function `getCachedResponse`.  Returns the parsed response (or `none`) together
with the updated metrics.  `if (!cached)` treats both an absent key and a
present empty-string payload as a miss; a non-empty payload on which
`JSON.parse` fails increments `errors` and returns `null`.  On a hit the
latency-saved estimate `3000 - (Date.now() - start)` uses the elapsed
backend time, a parameter here. -/
def getCachedResponse (decode : String → Option CachedResponse)
    (cache : List (String × String)) (elapsedMs : Int)
    (query : String) (filters : Option SearchFilters)
    (m : CacheMetrics) : Option CachedResponse × CacheMetrics :=
  let key := generateCacheKey query filters
  match cacheGet cache key with
  | none => (none, { m with misses := m.misses + 1 })
  | some cached =>
    if cached == "" then (none, { m with misses := m.misses + 1 })
    else
      match decode cached with
      | some response =>
        (some response,
         { m with hits := m.hits + 1,
                  totalLatencySavedMs := m.totalLatencySavedMs + (3000 - elapsedMs) })
      | none => (none, { m with errors := m.errors + 1 })

/-- The function `setCachedResponse`: computes the key and TTL and writes the encoded
payload.  The TTL is consumed by the backend (expiry is not part of the
healthy-store model) but computed as in the source. -/
def setCachedResponse (encode : CachedResponse → String) (baseTtl : Nat)
    (cache : List (String × String)) (query : String) (response : CachedResponse)
    (filters : Option SearchFilters) (ttlSeconds : Option Nat) : List (String × String) :=
  let key := generateCacheKey query filters
  let _ttl := ttlSeconds.getD (getTtlForCategory baseTtl (filters.bind (fun f => f.category)))
  cacheSet cache key (encode response)

/-! Section: Hybrid search (hybrid-search.ts) -/

structure SearchChunk where
  chunkId : String
  text : String
  score : ℚ
  docName : String
  pageNumber : Nat
  category : String
  chunkIndex : Nat
deriving DecidableEq, Repr

structure RawChunk where
  chunk_id : String
  text : String
  score : ℚ
  doc_name : String
  page_number : Nat
  category : String
  chunk_index : Nat
deriving DecidableEq, Repr

structure IngestionSearchResponse where
  query : String
  results : List RawChunk
  total_candidates : Nat
  search_time_ms : Nat
deriving DecidableEq, Repr

/-- The outcome of the `fetch` to the ingestion service: either a transport
failure, or an HTTP response with an `ok` flag, status, error text and
decoded body. -/
structure FetchResponse where
  ok : Bool
  status : Nat
  errText : String
  body : IngestionSearchResponse
deriving DecidableEq, Repr

/-- The request body built by `vectorSearch`: `category`/`doc_name` are only
set when truthy. -/
structure SearchBody where
  query : String
  n_results : Nat
  category : Option String
  doc_name : Option String
deriving DecidableEq, Repr

/-- The request body built by `vectorSearch`: `n_results` defaults to 20,
`category`/`doc_name` are only set when truthy. -/
def searchBodyOf (query : String) (filters : SearchFilters) : SearchBody :=
  { query := query
    n_results := filters.nResults.getD 20
    category := if isTruthy filters.category then filters.category else none
    doc_name := if isTruthy filters.docName then filters.docName else none }

/-- The function `vectorSearch`: builds the request body and raises on transport failure
or a non-ok response. -/
def vectorSearch (backend : SearchBody → Except String FetchResponse)
    (query : String) (filters : SearchFilters) : Except String IngestionSearchResponse :=
  match backend (searchBodyOf query filters) with
  | .error e => .error e
  | .ok response =>
    if response.ok then .ok response.body
    else .error ("Ingestion service search failed (" ++ toString response.status ++ "): "
                 ++ response.errText)

/-- The model of `Set.add` on the page set of a document. -/
def addPage (pages : List Nat) (p : Nat) : List Nat :=
  if p ∈ pages then pages else p :: pages

/-- The body of the stateful closure passed to `.map` inside `rerank`:
reads the page set of the chunk's document from the accumulator, applies the
0.7 duplicate-page or 0.9 same-document penalty, and marks the page seen.
`Map.get`/`Map.set` become association-list lookup and shadowing insert. -/
def rerankStep (seen : List (String × List Nat)) (c : SearchChunk) :
    SearchChunk × List (String × List Nat) :=
  let pages := (seen.lookup c.docName).getD []
  let adjustedScore :=
    if c.pageNumber ∈ pages then c.score * (7 / 10)
    else if 0 < pages.length then c.score * (9 / 10)
    else c.score
  ({ c with score := adjustedScore }, (c.docName, addPage pages c.pageNumber) :: seen)

def rerankAux : List (String × List Nat) → List SearchChunk → List SearchChunk
  | _, [] => []
  | seen, c :: cs =>
    let step := rerankStep seen c
    step.1 :: rerankAux step.2 cs

/-- The score-adjustment pass of `rerank` (the `.map` with its closure over
`docPageCounts`), visiting candidates in order. -/
def adjustScores (chunks : List SearchChunk) : List SearchChunk :=
  rerankAux [] chunks

/-- The order of `.sort((a, b) => b.score - a.score)`: descending score. -/
def chunkGe (a b : SearchChunk) : Prop := b.score ≤ a.score

instance : DecidableRel chunkGe := fun a b =>
  inferInstanceAs (Decidable (b.score ≤ a.score))

/-- The function `rerank`: adjust scores, then sort descending.  `Array.prototype.sort`
is stable, and a stable sort is extensionally determined by the order, so it
is modelled by insertion sort (which is stable). -/
def rerank (chunks : List SearchChunk) : List SearchChunk :=
  List.insertionSort chunkGe (adjustScores chunks)

structure HybridSearchResult where
  query : String
  chunks : List SearchChunk
  searchTimeMs : Nat
  totalCandidates : Nat
deriving DecidableEq, Repr

def toSearchChunk (r : RawChunk) : SearchChunk :=
  { chunkId := r.chunk_id, text := r.text, score := r.score, docName := r.doc_name,
    pageNumber := r.page_number, category := r.category, chunkIndex := r.chunk_index }

/-- The function `hybridSearch`: request 20 candidates (`{...filters, nResults: 20}`),
map to the internal type, re-rank, truncate to `filters.nResults ?? 5`.
The elapsed wall time is a parameter. -/
def hybridSearch (backend : SearchBody → Except String FetchResponse)
    (searchElapsedMs : Nat) (query : String) (filters : SearchFilters) :
    Except String HybridSearchResult :=
  match vectorSearch backend query { filters with nResults := some 20 } with
  | .error e => .error e
  | .ok rawResults =>
    let chunks := rawResults.results.map toSearchChunk
    let reranked := rerank chunks
    let topK := filters.nResults.getD 5
    .ok { query := query, chunks := reranked.take topK,
          searchTimeMs := searchElapsedMs, totalCandidates := rawResults.total_candidates }

/-! Section: Answer generation (`generateAnswer`, generator.ts)

The OpenAI-compatible call is external; its outcome is a parameter: an
exception message, or a response whose `choices[0]?.message?.content` may be
missing.  `generateAnswer` itself never raises.  The query and conversation
history only feed the message construction for that call, so they do not
appear in the model. -/

def joinSep (sep : String) : List String → String
  | [] => ""
  | [x] => x
  | x :: xs => x ++ sep ++ joinSep sep xs

/-- One fallback excerpt: `From "doc" (Page n):\n` plus the chunk text cut
to 300 code units. -/
def excerptOf (c : SearchChunk) : String :=
  "From \"" ++ c.docName ++ "\" (Page " ++ toString c.pageNumber ++ "):\n" ++ strTake 300 c.text

def noChunksFailureNotice (errMsg : String) : String :=
  "I'm unable to process your question right now. Error: " ++ errMsg

def degradedAnswer (chunks : List SearchChunk) (errMsg : String) : String :=
  "I'm unable to process your question through the AI model right now, but here are the most relevant document excerpts:\n\n"
  ++ joinSep "\n\n---\n\n" ((chunks.take 3).map excerptOf)
  ++ "\n\n(LLM error: " ++ errMsg ++ ")"

def generateAnswer (llm : Except String (Option String)) (chunks : List SearchChunk) : String :=
  match llm with
  | .ok (some content) => content
  | .ok none => "I was unable to generate a response. Please try again."
  | .error errMsg =>
    if 0 < chunks.length then degradedAnswer chunks errMsg
    else noChunksFailureNotice errMsg

/-! Section: Conversation history (conversation.ts)

The SQLite table is an append-only chronological list; `getConversationHistory`
takes the most recent `limit` rows for the exact (user, session) pair in
oldest-first order. -/

structure ConversationEntry where
  userId : String
  sessionId : String
  query : String
  response : String
  sources : List Source
  wasCached : Bool
  searchTimeMs : Nat
  generationTimeMs : Nat
deriving DecidableEq, Repr

def saveConversation (history : List ConversationEntry) (entry : ConversationEntry) :
    List ConversationEntry :=
  history ++ [entry]

def getConversationHistory (history : List ConversationEntry)
    (userId sessionId : String) (limit : Nat) : List ConversationEntry :=
  let matching := history.filter (fun h => h.userId == userId && h.sessionId == sessionId)
  (matching.reverse.take limit).reverse

/-! Section: Query router (`processQuery`, query-router.ts) -/

structure QueryRequest where
  query : String
  userId : Option String
  sessionId : Option String
  filters : Option SearchFilters
deriving DecidableEq, Repr

structure QueryResponse where
  answer : String
  sources : List Source
  cached : Bool
  searchTimeMs : Nat
  generationTimeMs : Nat
  totalTimeMs : Nat
deriving DecidableEq, Repr

/-- The external collaborators and clock readings of one request. -/
structure Env where
  searchBackend : SearchBody → Except String FetchResponse
  llmOutcome : Except String (Option String)
  encode : CachedResponse → String
  decode : String → Option CachedResponse
  cacheElapsedMs : Int
  searchElapsedMs : Nat
  genElapsedMs : Nat
  totalElapsedMs : Nat
  nowIso : String

/-- The mutable state shared across requests: the Redis keyspace, the
conversation table, and the process-wide metrics. -/
structure St where
  cache : List (String × String)
  history : List ConversationEntry
  metrics : CacheMetrics
deriving DecidableEq

/-- JS `Math.round`: halves round toward positive infinity. -/
def jsRound (q : ℚ) : ℤ := Rat.floor (q + 1 / 2)

/-- The model of `Math.round(score * 1000) / 1000`. -/
def round3 (q : ℚ) : ℚ := (jsRound (q * 1000) : ℚ) / 1000

/-- One entry of the source summary: text cut to 200 code units with an
ellipsis marker when truncated, score rounded to 3 decimals. -/
def sourceOf (c : SearchChunk) : Source :=
  { docName := c.docName
    pageNumber := c.pageNumber
    chunkText := strTake 200 c.text ++ (if 200 < c.text.data.length then "..." else "")
    score := round3 c.score }

/-- The function `processQuery`: cache check, then either the hit path or the miss path
(search, history load, generation, source building, cache write, history
write).  The result carries the final state; a thrown error appears as
`.error` with the state as it stood when the exception propagated (the
metrics mutation from the cache check has already happened). -/
def processQuery (env : Env) (st : St) (request : QueryRequest) :
    Except String QueryResponse × St :=
  let cachedStep := getCachedResponse env.decode st.cache env.cacheElapsedMs
      request.query request.filters st.metrics
  match cachedStep.1 with
  | some cached =>
    let history1 :=
      if isTruthy request.userId then
        saveConversation st.history
          { userId := request.userId.getD ""
            sessionId := request.sessionId.getD "default"
            query := request.query
            response := cached.answer
            sources := cached.sources
            wasCached := true
            searchTimeMs := 0
            generationTimeMs := 0 }
      else st.history
    (.ok { answer := cached.answer, sources := cached.sources, cached := true,
           searchTimeMs := 0, generationTimeMs := cached.generationTimeMs,
           totalTimeMs := env.totalElapsedMs },
     { st with metrics := cachedStep.2, history := history1 })
  | none =>
    match hybridSearch env.searchBackend env.searchElapsedMs request.query
        (request.filters.getD emptyFilters) with
    | .error e => (.error e, { st with metrics := cachedStep.2 })
    | .ok searchResult =>
      let answer := generateAnswer env.llmOutcome searchResult.chunks
      let generationTimeMs := env.genElapsedMs
      let sources := searchResult.chunks.map sourceOf
      let cacheEntry : CachedResponse :=
        { answer := answer, sources := sources, cachedAt := env.nowIso,
          generationTimeMs := generationTimeMs }
      let cache1 := setCachedResponse env.encode cacheTtlSecondsDefault st.cache
          request.query cacheEntry request.filters none
      let history1 :=
        if isTruthy request.userId then
          saveConversation st.history
            { userId := request.userId.getD ""
              sessionId := request.sessionId.getD "default"
              query := request.query
              response := answer
              sources := sources
              wasCached := false
              searchTimeMs := searchResult.searchTimeMs
              generationTimeMs := generationTimeMs }
        else st.history
      (.ok { answer := answer, sources := sources, cached := false,
             searchTimeMs := searchResult.searchTimeMs,
             generationTimeMs := generationTimeMs,
             totalTimeMs := env.totalElapsedMs },
       { cache := cache1, history := history1, metrics := cachedStep.2 })

/-- The re-rank penalty of a candidate as a function of the candidates
processed before it: 0.7 when its (document, page) pair was already seen,
else 0.9 when its document was seen with some other page, else 1. -/
def penalty (prior : List SearchChunk) (c : SearchChunk) : ℚ :=
  if prior.any (fun p => p.docName == c.docName && p.pageNumber == c.pageNumber) then 7 / 10
  else if prior.any (fun p => p.docName == c.docName) then 9 / 10
  else 1

/-! Section: Character-level lemmas -/

theorem chToNat_inj {a b : Char} (h : a.toNat = b.toNat) : a = b := by
  have h2 := congrArg Char.ofNat h
  rwa [Char.ofNat_toNat, Char.ofNat_toNat] at h2

theorem chEq_iff {a b : Char} : a = b ↔ a.toNat = b.toNat :=
  ⟨fun h => h ▸ rfl, chToNat_inj⟩

theorem toNat_ofNat_valid {n : Nat} (h : n.isValidChar) : (Char.ofNat n).toNat = n := by
  rw [Char.ofNat, dif_pos h]
  rfl

theorem toLower_def (c : Char) :
    Char.toLower c =
      if 65 ≤ c.toNat ∧ c.toNat ≤ 90 then Char.ofNat (c.toNat + 32) else c := by
  simp only [Char.toLower]

theorem toLower_toNat (c : Char) :
    (Char.toLower c).toNat =
      if 65 ≤ c.toNat ∧ c.toNat ≤ 90 then c.toNat + 32 else c.toNat := by
  rw [toLower_def]
  split
  case isTrue h => exact toNat_ofNat_valid (Or.inl (by omega))
  case isFalse h => rfl

theorem toLower_idem (c : Char) : Char.toLower (Char.toLower c) = Char.toLower c := by
  apply chToNat_inj
  rw [toLower_toNat (Char.toLower c), toLower_toNat c]
  by_cases h : 65 ≤ c.toNat ∧ c.toNat ≤ 90
  · simp only [if_pos h]
    rw [if_neg (by omega)]
  · simp only [if_neg h]

theorem isWhitespace_iff (c : Char) :
    c.isWhitespace = true ↔ c.toNat = 32 ∨ c.toNat = 9 ∨ c.toNat = 13 ∨ c.toNat = 10 := by
  have e1 : Char.toNat ' ' = 32 := rfl
  have e2 : Char.toNat '\t' = 9 := rfl
  have e3 : Char.toNat '\r' = 13 := rfl
  have e4 : Char.toNat '\n' = 10 := rfl
  simp only [Char.isWhitespace, Bool.or_eq_true, decide_eq_true_eq]
  rw [chEq_iff, chEq_iff, chEq_iff, chEq_iff, e1, e2, e3, e4]
  tauto

theorem isWhitespace_toLower (c : Char) :
    (Char.toLower c).isWhitespace = c.isWhitespace := by
  cases h1 : (Char.toLower c).isWhitespace <;> cases h2 : c.isWhitespace <;> try rfl
  · exfalso
    have := (isWhitespace_iff c).mp h2
    have h3 := (isWhitespace_iff (Char.toLower c)).mpr
    rw [toLower_toNat, if_neg (by omega)] at h3
    rw [h3 this] at h1
    cases h1
  · exfalso
    have := (isWhitespace_iff (Char.toLower c)).mp h1
    rw [toLower_toNat] at this
    have h4 := (isWhitespace_iff c).mpr
    split at this
    · omega
    · rw [h4 this] at h2
      cases h2

/-! Section: The token order: total, transitive, antisymmetric -/

theorem tokenLe_total (a b : List Char) : tokenLe a b = true ∨ tokenLe b a = true := by
  induction a generalizing b with
  | nil => exact Or.inl rfl
  | cons x xs ih =>
    cases b with
    | nil => exact Or.inr rfl
    | cons y ys =>
      rcases Nat.lt_trichotomy x.toNat y.toNat with h | h | h
      · refine Or.inl ?_
        simp only [tokenLe]
        rw [if_pos h]
      · rcases ih ys with h2 | h2
        · refine Or.inl ?_
          simp only [tokenLe]
          rw [if_neg (by omega), if_neg (by omega)]
          exact h2
        · refine Or.inr ?_
          simp only [tokenLe]
          rw [if_neg (by omega), if_neg (by omega)]
          exact h2
      · refine Or.inr ?_
        simp only [tokenLe]
        rw [if_pos h]

theorem tokenLe_trans {a b c : List Char} (hab : tokenLe a b = true)
    (hbc : tokenLe b c = true) : tokenLe a c = true := by
  induction a generalizing b c with
  | nil => rfl
  | cons x xs ih =>
    cases b with
    | nil => exact absurd hab (by simp [tokenLe])
    | cons y ys =>
      cases c with
      | nil => exact absurd hbc (by simp [tokenLe])
      | cons z zs =>
        simp only [tokenLe] at hab hbc ⊢
        by_cases hxy : x.toNat < y.toNat
        · by_cases hyz : y.toNat < z.toNat
          · rw [if_pos (by omega)]
          · by_cases hzy : z.toNat < y.toNat
            · rw [if_neg hyz, if_pos hzy] at hbc
              exact Bool.noConfusion hbc
            · rw [if_pos (by omega)]
        · by_cases hyx : y.toNat < x.toNat
          · rw [if_neg hxy, if_pos hyx] at hab
            exact Bool.noConfusion hab
          · by_cases hyz : y.toNat < z.toNat
            · rw [if_pos (by omega)]
            · by_cases hzy : z.toNat < y.toNat
              · rw [if_neg hyz, if_pos hzy] at hbc
                exact Bool.noConfusion hbc
              · rw [if_neg (by omega), if_neg (by omega)]
                rw [if_neg hxy, if_neg hyx] at hab
                rw [if_neg hyz, if_neg hzy] at hbc
                exact ih hab hbc

theorem tokenLe_antisymm {a b : List Char} (hab : tokenLe a b = true)
    (hba : tokenLe b a = true) : a = b := by
  induction a generalizing b with
  | nil =>
    cases b with
    | nil => rfl
    | cons y ys => exact absurd hba (by simp [tokenLe])
  | cons x xs ih =>
    cases b with
    | nil => exact absurd hab (by simp [tokenLe])
    | cons y ys =>
      simp only [tokenLe] at hab hba
      rcases Nat.lt_trichotomy x.toNat y.toNat with h | h | h
      · rw [if_neg (by omega), if_pos h] at hba
        exact Bool.noConfusion hba
      · rw [if_neg (by omega), if_neg (by omega)] at hab hba
        rw [chToNat_inj h, ih hab hba]
      · rw [if_neg (by omega), if_pos h] at hab
        exact Bool.noConfusion hab

instance : IsTotal (List Char) tokenRel := ⟨fun a b => tokenLe_total a b⟩

instance : IsTrans (List Char) tokenRel := ⟨fun _ _ _ => tokenLe_trans⟩

instance : IsAntisymm (List Char) tokenRel := ⟨fun _ _ => tokenLe_antisymm⟩

/-! Section: Splitting and joining lemmas -/

theorem splitWs_ne_nil (cs : List Char) : splitWs cs ≠ [] := by
  cases cs with
  | nil => simp [splitWs]
  | cons c cs =>
    simp only [splitWs]
    by_cases hw : c.isWhitespace
    · rw [if_pos hw]
      simp
    · rw [if_neg hw]
      cases hsp : splitWs cs <;> simp

theorem mem_splitWs {c : Char} {t : List Char} :
    ∀ {cs : List Char}, t ∈ splitWs cs → c ∈ t → c ∈ cs ∧ c.isWhitespace = false := by
  intro cs
  induction cs generalizing t with
  | nil =>
    intro ht hc
    simp [splitWs] at ht
    subst ht
    cases hc
  | cons d ds ih =>
    intro ht hc
    simp only [splitWs] at ht
    by_cases hw : d.isWhitespace
    · rw [if_pos hw] at ht
      rcases List.mem_cons.mp ht with h | h
      · subst h
        cases hc
      · have := ih h hc
        exact ⟨List.mem_cons_of_mem d this.1, this.2⟩
    · rw [if_neg hw] at ht
      rcases hsp : splitWs ds with _ | ⟨t0, ts0⟩
      · exact absurd hsp (splitWs_ne_nil ds)
      · rw [hsp] at ht
        rcases List.mem_cons.mp ht with h | h
        · subst h
          rcases List.mem_cons.mp hc with h2 | h2
          · subst h2
            exact ⟨List.mem_cons_self c ds, by simpa using hw⟩
          · have := ih (hsp ▸ List.mem_cons_self t0 ts0) h2
            exact ⟨List.mem_cons_of_mem d this.1, this.2⟩
        · have := ih (hsp ▸ List.mem_cons_of_mem t0 h) hc
          exact ⟨List.mem_cons_of_mem d this.1, this.2⟩

theorem splitWs_map_toLower (cs : List Char) :
    splitWs (cs.map Char.toLower) = (splitWs cs).map (List.map Char.toLower) := by
  induction cs with
  | nil => simp [splitWs]
  | cons c cs ih =>
    simp only [List.map_cons, splitWs, isWhitespace_toLower]
    by_cases hw : c.isWhitespace
    · rw [if_pos hw, if_pos hw, ih]
      simp
    · rw [if_neg hw, if_neg hw, ih]
      rcases hsp : splitWs cs with _ | ⟨t, ts⟩
      · exact absurd hsp (splitWs_ne_nil cs)
      · simp

theorem splitWs_filter (p : Char → Bool) (hws : ∀ c, c.isWhitespace = true → p c = true) :
    ∀ cs : List Char, splitWs (cs.filter p) = (splitWs cs).map (fun t => t.filter p) := by
  intro cs
  induction cs with
  | nil => simp [splitWs]
  | cons c cs ih =>
    by_cases hw : c.isWhitespace
    · rw [List.filter_cons_of_pos (hws c hw)]
      simp only [splitWs]
      rw [if_pos hw, if_pos hw, ih]
      simp
    · by_cases hp : p c
      · rw [List.filter_cons_of_pos hp]
        simp only [splitWs]
        rw [if_neg hw, if_neg hw, ih]
        rcases hsp : splitWs cs with _ | ⟨t, ts⟩
        · exact absurd hsp (splitWs_ne_nil cs)
        · simp [hp]
      · rw [List.filter_cons_of_neg (by simpa using hp)]
        simp only [splitWs]
        rw [if_neg hw, ih]
        rcases hsp : splitWs cs with _ | ⟨t, ts⟩
        · exact absurd hsp (splitWs_ne_nil cs)
        · simp [hp]

theorem splitWs_noWs (t : List Char) (h : ∀ c ∈ t, c.isWhitespace = false) :
    splitWs t = [t] := by
  induction t with
  | nil => rfl
  | cons c cs ih =>
    simp only [splitWs]
    rw [if_neg (by simp [h c (List.mem_cons_self c cs)])]
    rw [ih (fun d hd => h d (List.mem_cons_of_mem c hd))]

theorem splitWs_append_space (t r : List Char) (h : ∀ c ∈ t, c.isWhitespace = false) :
    splitWs (t ++ ' ' :: r) = t :: splitWs r := by
  induction t with
  | nil =>
    simp only [List.nil_append, splitWs]
    rw [if_pos (by decide)]
  | cons c cs ih =>
    simp only [List.cons_append, splitWs, List.append_eq]
    rw [if_neg (by simp [h c (List.mem_cons_self c cs)])]
    rw [ih (fun d hd => h d (List.mem_cons_of_mem c hd))]

theorem mem_joinTokens {c : Char} :
    ∀ {ts : List (List Char)}, c ∈ joinTokens ts → (∃ t ∈ ts, c ∈ t) ∨ c = ' ' := by
  intro ts
  induction ts with
  | nil =>
    intro h
    cases h
  | cons t ts ih =>
    intro h
    cases ts with
    | nil =>
      exact Or.inl ⟨t, List.mem_cons_self t [], h⟩
    | cons t2 ts2 =>
      simp only [joinTokens] at h
      rcases List.mem_append.mp h with h2 | h2
      · exact Or.inl ⟨t, List.mem_cons_self t (t2 :: ts2), h2⟩
      · rcases List.mem_cons.mp h2 with h3 | h3
        · exact Or.inr h3
        · rcases ih h3 with ⟨u, hu, hcu⟩ | h4
          · exact Or.inl ⟨u, List.mem_cons_of_mem t hu, hcu⟩
          · exact Or.inr h4

theorem goodWord_nil : goodWord [] = false := by decide

theorem filter_splitWs_joinTokens :
    ∀ ts : List (List Char),
      (∀ t ∈ ts, goodWord t = true ∧ ∀ c ∈ t, c.isWhitespace = false) →
      (splitWs (joinTokens ts)).filter goodWord = ts := by
  intro ts
  induction ts with
  | nil => simp [joinTokens, splitWs, goodWord_nil]
  | cons t ts ih =>
    intro h
    cases ts with
    | nil =>
      have ht := h t (List.mem_cons_self t [])
      simp only [joinTokens]
      rw [splitWs_noWs t ht.2]
      simp [ht.1]
    | cons t2 ts2 =>
      have ht := h t (List.mem_cons_self t (t2 :: ts2))
      simp only [joinTokens]
      rw [splitWs_append_space t _ ht.2]
      rw [List.filter_cons_of_pos ht.1]
      have := ih (fun u hu => h u (List.mem_cons_of_mem t hu))
      simp only [joinTokens] at this
      rw [this]

/-! Section: Normalizer: main lemmas -/

theorem keepChar_of_ws (c : Char) (h : c.isWhitespace = true) : keepChar c = true := by
  unfold keepChar
  rw [h]
  simp

/-- The tokens entering the filter/sort stages, rewritten as a map over the
tokens of the raw query. -/
theorem normalizeData_eq (cs : List Char) :
    normalizeData cs = joinTokens (List.insertionSort tokenRel
      (List.filter goodWord
        ((splitWs cs).map (List.filter keepChar ∘ List.map Char.toLower)))) := by
  unfold normalizeData
  rw [splitWs_filter keepChar keepChar_of_ws, splitWs_map_toLower, List.map_map]

/-- Order- and case-invariance: two raw queries whose lowered token lists
agree as multisets normalize identically. -/
theorem normalizeData_invariant (cs ds : List Char)
    (h : ((splitWs cs).map (List.map Char.toLower)).Perm
         ((splitWs ds).map (List.map Char.toLower))) :
    normalizeData cs = normalizeData ds := by
  rw [normalizeData_eq, normalizeData_eq]
  apply congrArg joinTokens
  have hXY : ((splitWs cs).map (List.filter keepChar ∘ List.map Char.toLower)).Perm
      ((splitWs ds).map (List.filter keepChar ∘ List.map Char.toLower)) := by
    rw [← List.map_map, ← List.map_map]
    exact h.map (List.filter keepChar)
  have hp : (List.insertionSort tokenRel (List.filter goodWord
        ((splitWs cs).map (List.filter keepChar ∘ List.map Char.toLower)))).Perm
      (List.insertionSort tokenRel (List.filter goodWord
        ((splitWs ds).map (List.filter keepChar ∘ List.map Char.toLower)))) :=
    (List.perm_insertionSort tokenRel _).trans
      ((hXY.filter goodWord).trans (List.perm_insertionSort tokenRel _).symm)
  exact List.eq_of_perm_of_sorted hp
    (List.sorted_insertionSort tokenRel _) (List.sorted_insertionSort tokenRel _)

/-- Every character of a normalized query is a whitespace-free,
lowercase-stable keeper, or the joining space. -/
theorem mem_normalizeData {c : Char} (cs : List Char) (h : c ∈ normalizeData cs) :
    (keepChar c = true ∧ c.isWhitespace = false ∧ Char.toLower c = c) ∨ c = ' ' := by
  unfold normalizeData at h
  rcases mem_joinTokens h with ⟨t, ht, hct⟩ | hsp
  · left
    have ht2 : t ∈ List.filter goodWord (splitWs (List.filter keepChar
        (cs.map Char.toLower))) := (List.mem_insertionSort tokenRel).mp ht
    have ht3 := (List.mem_filter.mp ht2).1
    have hc := mem_splitWs ht3 hct
    have hkeep := (List.mem_filter.mp hc.1).2
    have hmap := (List.mem_filter.mp hc.1).1
    rcases List.mem_map.mp hmap with ⟨c0, _, hc0⟩
    refine ⟨hkeep, hc.2, ?_⟩
    rw [← hc0, toLower_idem]
  · exact Or.inr hsp

theorem goodWord_token_chars {t : List Char} (cs : List Char)
    (ht : t ∈ List.insertionSort tokenRel (List.filter goodWord
      (splitWs (List.filter keepChar (cs.map Char.toLower))))) :
    goodWord t = true ∧ ∀ c ∈ t, c.isWhitespace = false := by
  have ht2 := (List.mem_insertionSort tokenRel).mp ht
  refine ⟨(List.mem_filter.mp ht2).2, fun c hc => ?_⟩
  exact (mem_splitWs (List.mem_filter.mp ht2).1 hc).2

/-- Idempotence of normalization. -/
theorem normalizeData_idem (cs : List Char) :
    normalizeData (normalizeData cs) = normalizeData cs := by
  have hchars := fun c (hc : c ∈ normalizeData cs) => mem_normalizeData cs hc
  have hmap : (normalizeData cs).map Char.toLower = normalizeData cs := by
    have : ∀ c ∈ normalizeData cs, Char.toLower c = id c := by
      intro c hc
      rcases hchars c hc with ⟨_, _, hl⟩ | hsp
      · exact hl
      · rw [hsp]
        rfl
    rw [List.map_congr_left this, List.map_id]
  have hfilter : List.filter keepChar (normalizeData cs) = normalizeData cs := by
    apply List.filter_eq_self.mpr
    intro c hc
    rcases hchars c hc with ⟨hk, _, _⟩ | hsp
    · exact hk
    · rw [hsp]
      decide
  conv_lhs => rw [normalizeData]
  rw [hmap, hfilter]
  conv_lhs => rw [normalizeData]
  rw [filter_splitWs_joinTokens _ (fun t ht => goodWord_token_chars cs ht)]
  rw [List.Sorted.insertionSort_eq (List.sorted_insertionSort tokenRel _)]
  rw [normalizeData]

/-- C2: for every query string, `normalizeQuery` is idempotent; it is
invariant under permuting and re-casing the whitespace-separated tokens of
the query (stated: equal multisets of lowered tokens give equal output); and
`normalizeQuery "What is the return policy?"`,
`normalizeQuery "return policy what is"`, and the literal `"policy return"`
all coincide. -/
theorem normalizeQuery_claim :
    (∀ q : String, normalizeQuery (normalizeQuery q) = normalizeQuery q) ∧
    (∀ q1 q2 : String,
      ((splitWs q1.data).map (List.map Char.toLower)).Perm
        ((splitWs q2.data).map (List.map Char.toLower)) →
      normalizeQuery q1 = normalizeQuery q2) ∧
    normalizeQuery "What is the return policy?" = normalizeQuery "return policy what is" ∧
    normalizeQuery "return policy what is" = "policy return" := by
  refine ⟨?_, ?_, by decide, by decide⟩
  · intro q
    exact congrArg String.mk (normalizeData_idem q.data)
  · intro q1 q2 h
    exact congrArg String.mk (normalizeData_invariant q1.data q2.data h)

/-- Witness for C2: a concrete idempotence instance and a concrete
order/case-variant pair, with the permutation hypothesis decided. -/
theorem normalizeQuery_claim_witness :
    normalizeQuery (normalizeQuery "How do I reset my password?") =
      normalizeQuery "How do I reset my password?" ∧
    normalizeQuery "Return policy" = normalizeQuery "policy RETURN" :=
  ⟨normalizeQuery_claim.1 _, normalizeQuery_claim.2.1 _ _ (by decide)⟩

/-! Section: Re-rank lemmas -/

theorem rerankAux_length : ∀ (seen : List (String × List Nat)) (cs : List SearchChunk),
    (rerankAux seen cs).length = cs.length := by
  intro seen cs
  induction cs generalizing seen with
  | nil => rfl
  | cons c cs ih => simp [rerankAux, ih]

theorem adjustScores_length (chunks : List SearchChunk) :
    (adjustScores chunks).length = chunks.length :=
  rerankAux_length [] chunks

theorem rerank_length (chunks : List SearchChunk) :
    (rerank chunks).length = chunks.length := by
  unfold rerank
  rw [List.length_insertionSort, adjustScores_length]

theorem mem_addPage {p q : Nat} {ps : List Nat} :
    p ∈ addPage ps q ↔ p ∈ ps ∨ p = q := by
  unfold addPage
  split
  case isTrue h =>
    constructor
    · exact fun h2 => Or.inl h2
    · rintro (h2 | h2)
      · exact h2
      · rwa [h2]
  case isFalse h => simp [List.mem_cons, or_comm]

theorem rerankAux_get :
    ∀ (cs : List SearchChunk) (seen : List (String × List Nat)) (hist : List SearchChunk),
      (∀ d p, p ∈ ((seen.lookup d).getD []) ↔ ∃ x ∈ hist, x.docName = d ∧ x.pageNumber = p) →
      ∀ (i : Nat) (hi : i < cs.length) (hi2 : i < (rerankAux seen cs).length),
        (rerankAux seen cs).get ⟨i, hi2⟩ =
          { cs.get ⟨i, hi⟩ with
            score := (cs.get ⟨i, hi⟩).score *
              penalty (hist ++ cs.take i) (cs.get ⟨i, hi⟩) } := by
  intro cs
  induction cs with
  | nil =>
    intro seen hist hinv i hi hi2
    cases hi
  | cons c cs ih =>
    intro seen hist hinv i hi hi2
    cases i with
    | zero =>
      show (rerankStep seen c).1 = _
      simp only [List.get, List.take_zero, List.append_nil]
      by_cases h1 : ∃ x ∈ hist, x.docName = c.docName ∧ x.pageNumber = c.pageNumber
      · have hstep : (rerankStep seen c).1 = { c with score := c.score * (7 / 10) } := by
          unfold rerankStep
          dsimp only
          rw [if_pos ((hinv c.docName c.pageNumber).mpr h1)]
        have hpen : penalty hist c = 7 / 10 := by
          unfold penalty
          rw [if_pos (by simpa [List.any_eq_true] using h1)]
        rw [hstep, hpen]
      · by_cases h2 : ∃ x ∈ hist, x.docName = c.docName
        · have hstep : (rerankStep seen c).1 = { c with score := c.score * (9 / 10) } := by
            unfold rerankStep
            dsimp only
            rcases h2 with ⟨x, hx, hxd⟩
            have hpgmem : x.pageNumber ∈ ((seen.lookup c.docName).getD []) :=
              (hinv c.docName x.pageNumber).mpr ⟨x, hx, hxd, rfl⟩
            rw [if_neg (fun hmem => h1 ((hinv c.docName c.pageNumber).mp hmem))]
            rw [if_pos (List.length_pos.mpr (List.ne_nil_of_mem hpgmem))]
          have hpen : penalty hist c = 9 / 10 := by
            unfold penalty
            rw [if_neg (by simpa [List.any_eq_true] using h1)]
            rw [if_pos (by
              simp only [List.any_eq_true, beq_iff_eq]
              rcases h2 with ⟨x, hx, hxd⟩
              exact ⟨x, hx, hxd⟩)]
          rw [hstep, hpen]
        · have hempty : ¬ 0 < ((seen.lookup c.docName).getD []).length := by
            intro hlen
            rcases List.exists_mem_of_length_pos hlen with ⟨p, hp⟩
            rcases (hinv c.docName p).mp hp with ⟨x, hx, hxd, _⟩
            exact h2 ⟨x, hx, hxd⟩
          have hstep : (rerankStep seen c).1 = { c with score := c.score } := by
            unfold rerankStep
            dsimp only
            rw [if_neg (fun hmem => h1 ((hinv c.docName c.pageNumber).mp hmem))]
            rw [if_neg hempty]
          have hpen : penalty hist c = 1 := by
            unfold penalty
            rw [if_neg (by simpa [List.any_eq_true] using h1)]
            rw [if_neg (by
              simp only [List.any_eq_true, beq_iff_eq, not_exists]
              intro x
              rintro ⟨hx, hxd⟩
              exact h2 ⟨x, hx, hxd⟩)]
          rw [hstep, hpen, mul_one]
    | succ i =>
      have hinv2 : ∀ d p, p ∈ (((rerankStep seen c).2.lookup d).getD []) ↔
          ∃ x ∈ hist ++ [c], x.docName = d ∧ x.pageNumber = p := by
        intro d p
        show p ∈ ((List.lookup d ((c.docName, addPage _ c.pageNumber) :: seen)).getD []) ↔ _
        by_cases hd : d = c.docName
        · subst hd
          rw [List.lookup_cons_self]
          simp only [Option.getD_some, mem_addPage]
          rw [hinv c.docName p]
          constructor
          · rintro (⟨x, hx, hxd, hxp⟩ | hp)
            · exact ⟨x, List.mem_append_left _ hx, hxd, hxp⟩
            · exact ⟨c, List.mem_append_right _ (List.mem_cons_self c []), rfl, hp.symm⟩
          · rintro ⟨x, hx, hxd, hxp⟩
            rcases List.mem_append.mp hx with hx2 | hx2
            · exact Or.inl ⟨x, hx2, hxd, hxp⟩
            · rcases List.mem_cons.mp hx2 with hx3 | hx3
              · subst hx3
                exact Or.inr hxp.symm
              · cases hx3
        · have hbeq : (d == c.docName) = false := beq_eq_false_iff_ne.mpr hd
          have hlk : List.lookup d ((c.docName, addPage ((seen.lookup c.docName).getD [])
              c.pageNumber) :: seen) = seen.lookup d := by
            rw [List.lookup_cons, hbeq]
          rw [hlk, hinv d p]
          constructor
          · rintro ⟨x, hx, hxd, hxp⟩
            exact ⟨x, List.mem_append_left _ hx, hxd, hxp⟩
          · rintro ⟨x, hx, hxd, hxp⟩
            rcases List.mem_append.mp hx with hx2 | hx2
            · exact ⟨x, hx2, hxd, hxp⟩
            · rcases List.mem_cons.mp hx2 with hx3 | hx3
              · subst hx3
                exact absurd hxd.symm hd
              · cases hx3
      have hi' : i < cs.length := Nat.lt_of_succ_lt_succ hi
      have hi2' : i < (rerankAux (rerankStep seen c).2 cs).length := by
        rw [rerankAux_length]
        exact hi'
      show (rerankAux (rerankStep seen c).2 cs).get ⟨i, hi2'⟩ = _
      rw [ih (rerankStep seen c).2 (hist ++ [c]) hinv2 i hi' hi2']
      show _ = { cs.get ⟨i, hi'⟩ with
        score := (cs.get ⟨i, hi'⟩).score *
          penalty (hist ++ ([c] ++ cs.take i)) (cs.get ⟨i, hi'⟩) }
      rw [← List.append_assoc]

instance : IsTotal SearchChunk chunkGe := ⟨fun a b => le_total b.score a.score⟩

instance : IsTrans SearchChunk chunkGe :=
  ⟨fun _ _ _ hab hbc => le_trans hbc hab⟩

/-- Stability of the descending insertion step: inserting never reorders the
subsequence of any fixed score, because every element skipped over has a
strictly larger score. -/
theorem filter_orderedInsert_score (q : ℚ) (a : SearchChunk) :
    ∀ l : List SearchChunk,
      (List.orderedInsert chunkGe a l).filter (fun x => decide (x.score = q)) =
        (a :: l).filter (fun x => decide (x.score = q)) := by
  intro l
  induction l with
  | nil => rfl
  | cons b l ih =>
    show (if chunkGe a b then _ else _ : List SearchChunk).filter _ = _
    by_cases hab : chunkGe a b
    · rw [if_pos hab]
    · rw [if_neg hab]
      have hlt : a.score < b.score := lt_of_not_le hab
      by_cases pa : a.score = q
      · have pb : ¬ b.score = q := by
          intro hb
          rw [pa] at hlt
          rw [hb] at hlt
          exact lt_irrefl q hlt
        rw [List.filter_cons_of_neg (by simpa using pb), ih]
        rw [List.filter_cons_of_pos (by simpa using pa)]
        rw [List.filter_cons_of_pos (by simpa using pa)]
        rw [List.filter_cons_of_neg (by simpa using pb)]
      · by_cases pb : b.score = q
        · rw [List.filter_cons_of_pos (by simpa using pb), ih]
          rw [List.filter_cons_of_neg (by simpa using pa)]
          rw [List.filter_cons_of_neg (by simpa using pa)]
          rw [List.filter_cons_of_pos (by simpa using pb)]
        · rw [List.filter_cons_of_neg (by simpa using pb), ih]
          rw [List.filter_cons_of_neg (by simpa using pa)]
          rw [List.filter_cons_of_neg (by simpa using pa)]
          rw [List.filter_cons_of_neg (by simpa using pb)]

theorem filter_insertionSort_score (q : ℚ) :
    ∀ l : List SearchChunk,
      (List.insertionSort chunkGe l).filter (fun x => decide (x.score = q)) =
        l.filter (fun x => decide (x.score = q)) := by
  intro l
  induction l with
  | nil => rfl
  | cons a l ih =>
    show (List.orderedInsert chunkGe a (List.insertionSort chunkGe l)).filter _ = _
    rw [filter_orderedInsert_score]
    by_cases pa : a.score = q
    · rw [List.filter_cons_of_pos (by simpa using pa), ih]
      rw [List.filter_cons_of_pos (by simpa using pa)]
    · rw [List.filter_cons_of_neg (by simpa using pa), ih]
      rw [List.filter_cons_of_neg (by simpa using pa)]

/-- C1: `rerank` processes candidates in the order received with a
per-document set of seen pages: each candidate's adjusted score is its score
times exactly 0.7 when its (document, page) pair occurs among the earlier
candidates, times exactly 0.9 when only its document occurs earlier, and
unchanged otherwise; afterwards the list is sorted descending by adjusted
score, as a permutation of the adjusted list in which candidates of any
equal score keep their pre-sort relative order. -/
theorem rerank_claim (chunks : List SearchChunk) :
    (∀ i, ∀ hi : i < chunks.length, ∀ hi2 : i < (adjustScores chunks).length,
      (adjustScores chunks).get ⟨i, hi2⟩ =
        { chunks.get ⟨i, hi⟩ with
          score := (chunks.get ⟨i, hi⟩).score *
            penalty (chunks.take i) (chunks.get ⟨i, hi⟩) }) ∧
    (rerank chunks).Sorted (fun a b => b.score ≤ a.score) ∧
    (rerank chunks).Perm (adjustScores chunks) ∧
    (∀ q : ℚ, (rerank chunks).filter (fun x => decide (x.score = q)) =
        (adjustScores chunks).filter (fun x => decide (x.score = q))) := by
  refine ⟨?_, ?_, ?_, ?_⟩
  · intro i hi hi2
    have hinv0 : ∀ d p, p ∈ ((([] : List (String × List Nat)).lookup d).getD []) ↔
        ∃ x ∈ ([] : List SearchChunk), x.docName = d ∧ x.pageNumber = p := by
      intro d p
      simp
    have := rerankAux_get chunks [] [] hinv0 i hi hi2
    simpa using this
  · exact List.sorted_insertionSort chunkGe (adjustScores chunks)
  · exact List.perm_insertionSort chunkGe (adjustScores chunks)
  · intro q
    exact filter_insertionSort_score q (adjustScores chunks)

/-- Witness for C1: the three-candidate scenario of the spec, one repeated
(document, page), one same-document other page.  The second and third
adjusted scores are exactly 0.7 and 0.9 times the originals. -/
theorem rerank_claim_witness :
    (adjustScores [⟨"c1", "t1", 9/10, "doc", 1, "hr", 0⟩,
        ⟨"c2", "t2", 4/5, "doc", 1, "hr", 1⟩,
        ⟨"c3", "t3", 7/10, "doc", 2, "hr", 2⟩]).get ⟨1, by decide⟩ =
      { ([⟨"c1", "t1", 9/10, "doc", 1, "hr", 0⟩,
          ⟨"c2", "t2", 4/5, "doc", 1, "hr", 1⟩,
          ⟨"c3", "t3", 7/10, "doc", 2, "hr", 2⟩] :
            List SearchChunk).get ⟨1, by decide⟩ with
        score := (4/5 : ℚ) *
          penalty ([⟨"c1", "t1", 9/10, "doc", 1, "hr", 0⟩,
            ⟨"c2", "t2", 4/5, "doc", 1, "hr", 1⟩,
            ⟨"c3", "t3", 7/10, "doc", 2, "hr", 2⟩].take 1)
            ⟨"c2", "t2", 4/5, "doc", 1, "hr", 1⟩ } :=
  (rerank_claim _).1 1 (by decide) (by decide)

/-! Section: TTL policy -/

/-- C4: for every category argument, including an absent one, the TTL is a
positive duration under the configured default base TTL (3600); the
policy-type categories get twice the base TTL, meeting notes half of it
(floored), and every other or missing category the base TTL itself. -/
theorem getTtlForCategory_claim :
    (∀ category : Option String, 0 < getTtlForCategory cacheTtlSecondsDefault category) ∧
    (∀ baseTtl : Nat,
      getTtlForCategory baseTtl (some "hr_policy") = baseTtl * 2 ∧
      getTtlForCategory baseTtl (some "it_policy") = baseTtl * 2 ∧
      getTtlForCategory baseTtl (some "finance") = baseTtl * 2 ∧
      getTtlForCategory baseTtl (some "meeting_notes") = baseTtl / 2) ∧
    (∀ (baseTtl : Nat) (category : Option String),
      category ∉ ([some "hr_policy", some "it_policy", some "finance",
        some "meeting_notes"] : List (Option String)) →
      getTtlForCategory baseTtl category = baseTtl) := by
  refine ⟨?_, ?_, ?_⟩
  · intro category
    unfold getTtlForCategory
    split <;> decide
  · intro baseTtl
    exact ⟨rfl, rfl, rfl, rfl⟩
  · intro baseTtl category hmem
    unfold getTtlForCategory
    split <;> first | rfl | simp_all

/-- Witness for C4: positivity at the halved category and the default TTL
for a category outside the special set. -/
theorem getTtlForCategory_claim_witness :
    0 < getTtlForCategory cacheTtlSecondsDefault (some "meeting_notes") ∧
    getTtlForCategory 60 (some "memo") = 60 :=
  ⟨getTtlForCategory_claim.1 (some "meeting_notes"),
   getTtlForCategory_claim.2.2 60 (some "memo") (by decide)⟩

/-! Section: Hybrid search truncation -/

/-- C6: on a successful backend call, `hybridSearch` returns exactly the
first `min(desired, candidates)` chunks of the re-ranked list, with the
desired count defaulting to 5; the truncation never exceeds the candidate
set size (also when the desired count exceeds the fixed 20-candidate
request). -/
theorem hybridSearch_claim (backend : SearchBody → Except String FetchResponse)
    (elapsed : Nat) (query : String) (filters : SearchFilters)
    (raw : IngestionSearchResponse)
    (h : vectorSearch backend query { filters with nResults := some 20 } = .ok raw) :
    ∃ result, hybridSearch backend elapsed query filters = .ok result ∧
      result.chunks = (rerank (raw.results.map toSearchChunk)).take (filters.nResults.getD 5) ∧
      result.chunks.length = min (filters.nResults.getD 5) raw.results.length ∧
      result.searchTimeMs = elapsed ∧
      result.totalCandidates = raw.total_candidates := by
  unfold hybridSearch
  rw [h]
  refine ⟨_, rfl, rfl, ?_, rfl, rfl⟩
  rw [List.length_take, rerank_length, List.length_map]

/-- Witness for C6: an empty candidate set with default filters. -/
theorem hybridSearch_claim_witness :
    ∃ result,
      hybridSearch (fun _ => Except.ok (⟨true, 200, "", ⟨"q", [], 0, 0⟩⟩ : FetchResponse))
        3 "q" emptyFilters = .ok result ∧
      result.chunks =
        (rerank (([] : List RawChunk).map toSearchChunk)).take (emptyFilters.nResults.getD 5) ∧
      result.chunks.length = min (emptyFilters.nResults.getD 5) ([] : List RawChunk).length ∧
      result.searchTimeMs = 3 ∧
      result.totalCandidates = 0 :=
  hybridSearch_claim _ 3 "q" emptyFilters ⟨"q", [], 0, 0⟩ rfl

/-! Section: Answer generation -/

theorem mem_joinSep_infix (sep : String) :
    ∀ (l : List String) (a : String), a ∈ l → a.data <:+: (joinSep sep l).data := by
  intro l
  induction l with
  | nil =>
    intro a h
    cases h
  | cons x xs ih =>
    intro a h
    cases xs with
    | nil =>
      rcases List.mem_cons.mp h with h2 | h2
      · subst h2
        exact List.infix_refl _
      · cases h2
    | cons y ys =>
      show a.data <:+: (x ++ sep ++ joinSep sep (y :: ys)).data
      rcases List.mem_cons.mp h with h2 | h2
      · subst h2
        refine ⟨[], sep.data ++ (joinSep sep (y :: ys)).data, ?_⟩
        simp [String.data_append]
      · rcases ih a h2 with ⟨s, t, hst⟩
        refine ⟨x.data ++ sep.data ++ s, t, ?_⟩
        rw [String.data_append, String.data_append]
        rw [← hst]
        simp [List.append_assoc]

/-- C7: `generateAnswer` is a total function of the backend outcome (it
never raises).  When the backend call fails and at least one chunk was
retrieved, the result is the degraded answer: it contains, verbatim, the
up-to-300-character excerpt of each of the first three chunks, together
with the explanatory error note; with zero chunks it is the plain failure
notice. -/
theorem generateAnswer_claim :
    (∀ (errMsg : String) (chunks : List SearchChunk), chunks ≠ [] →
      generateAnswer (.error errMsg) chunks = degradedAnswer chunks errMsg ∧
      (∀ c ∈ chunks.take 3,
        (strTake 300 c.text).data <:+: (generateAnswer (.error errMsg) chunks).data ∧
        (strTake 300 c.text).data.length ≤ 300) ∧
      "I'm unable to process your question through the AI model right now".data <:+:
        (generateAnswer (.error errMsg) chunks).data ∧
      ("(LLM error: " ++ errMsg ++ ")").data <:+:
        (generateAnswer (.error errMsg) chunks).data) ∧
    (∀ errMsg : String, generateAnswer (.error errMsg) [] = noChunksFailureNotice errMsg) := by
  constructor
  · intro errMsg chunks hne
    have hlen : 0 < chunks.length := List.length_pos.mpr hne
    have heq : generateAnswer (.error errMsg) chunks = degradedAnswer chunks errMsg := by
      show (if 0 < chunks.length then degradedAnswer chunks errMsg
        else noChunksFailureNotice errMsg) = degradedAnswer chunks errMsg
      rw [if_pos hlen]
    have hdata : (degradedAnswer chunks errMsg).data =
        "I'm unable to process your question through the AI model right now, but here are the most relevant document excerpts:\n\n".data ++
        ((joinSep "\n\n---\n\n" ((chunks.take 3).map excerptOf)).data ++
          (("\n\n(LLM error: " : String).data ++ (errMsg.data ++ (")" : String).data))) := by
      simp [degradedAnswer, String.data_append]
    refine ⟨heq, ?_, ?_, ?_⟩
    · intro c hc
      constructor
      · rw [heq, hdata]
        have h1 : (excerptOf c).data <:+:
            (joinSep "\n\n---\n\n" ((chunks.take 3).map excerptOf)).data :=
          mem_joinSep_infix _ _ _ (List.mem_map_of_mem excerptOf hc)
        have h2 : (strTake 300 c.text).data <:+: (excerptOf c).data := by
          unfold excerptOf
          refine ⟨("From \"" ++ c.docName ++ "\" (Page " ++ toString c.pageNumber
            ++ "):\n").data, [], ?_⟩
          simp [String.data_append]
        rcases h2.trans h1 with ⟨s, t, hst⟩
        refine ⟨"I'm unable to process your question through the AI model right now, but here are the most relevant document excerpts:\n\n".data ++ s,
          t ++ (("\n\n(LLM error: " : String).data ++ (errMsg.data ++ (")" : String).data)), ?_⟩
        rw [← hst]
        simp [List.append_assoc]
      · rw [show (strTake 300 c.text).data = c.text.data.take 300 from rfl]
        exact List.length_take_le 300 c.text.data
    · rw [heq, hdata]
      refine ⟨[], (", but here are the most relevant document excerpts:\n\n" : String).data ++
        ((joinSep "\n\n---\n\n" ((chunks.take 3).map excerptOf)).data ++
          (("\n\n(LLM error: " : String).data ++ (errMsg.data ++ (")" : String).data))), ?_⟩
      rw [show ("I'm unable to process your question through the AI model right now, but here are the most relevant document excerpts:\n\n" : String).data =
        ("I'm unable to process your question through the AI model right now" : String).data ++
        (", but here are the most relevant document excerpts:\n\n" : String).data by decide]
      simp [List.append_assoc]
    · rw [heq, hdata]
      refine ⟨"I'm unable to process your question through the AI model right now, but here are the most relevant document excerpts:\n\n".data ++
        ((joinSep "\n\n---\n\n" ((chunks.take 3).map excerptOf)).data ++ ['\n', '\n']),
        [], ?_⟩
      rw [show ("\n\n(LLM error: " : String).data =
        ['\n', '\n'] ++ ("(LLM error: " : String).data by decide]
      simp [String.data_append, List.append_assoc]
  · intro errMsg
    rfl

/-- Witness for C7: a concrete failing backend with one retrieved chunk,
and the zero-chunk notice. -/
theorem generateAnswer_claim_witness :
    generateAnswer (.error "boom") [⟨"c1", "hello", 1, "d", 1, "hr", 0⟩] =
      degradedAnswer [⟨"c1", "hello", 1, "d", 1, "hr", 0⟩] "boom" ∧
    generateAnswer (.error "x") [] = noChunksFailureNotice "x" :=
  ⟨(generateAnswer_claim.1 "boom" _ (by decide)).1, generateAnswer_claim.2 "x"⟩

/-! Section: Cache key lemmas -/

theorem strAppend_left_cancel {s a b : String} (h : s ++ a = s ++ b) : a = b := by
  have hd := congrArg String.data h
  rw [String.data_append, String.data_append] at hd
  exact String.ext (List.append_cancel_left hd)

theorem cacheKeyInput_len_none (q : String) :
    (cacheKeyInput q none).data.length = 4 + (normalizeQuery q).data.length := by
  show (("rag:" ++ normalizeQuery q ++ "") : String).data.length = _
  simp [String.data_append, List.length_append]
  omega

theorem cacheKeyInput_len_some (q : String) (cat dn : Option String) (n : Option Nat) :
    (cacheKeyInput q (some ⟨cat, dn, n⟩)).data.length =
      6 + (normalizeQuery q).data.length +
        (cat.getD "").data.length + (dn.getD "").data.length := by
  show (("rag:" ++ normalizeQuery q ++
    (":" ++ cat.getD "" ++ ":" ++ dn.getD "")) : String).data.length = _
  simp [String.data_append, List.length_append]
  omega

theorem generateCacheKeyWith_eq (digest : String → String) (q : String)
    (f : Option SearchFilters) :
    generateCacheKeyWith digest q f = "rag:query:" ++ digest (cacheKeyInput q f) := rfl

/-- If the digest is injective, distinct canonical inputs give distinct
keys. -/
theorem keysWith_ne_of_input_ne {digest : String → String}
    (hinj : Function.Injective digest) {q1 q2 : String}
    {f1 f2 : Option SearchFilters}
    (hne : cacheKeyInput q1 f1 ≠ cacheKeyInput q2 f2) :
    generateCacheKeyWith digest q1 f1 ≠ generateCacheKeyWith digest q2 f2 := by
  intro h
  rw [generateCacheKeyWith_eq, generateCacheKeyWith_eq] at h
  exact hne (hinj (strAppend_left_cancel h))

/-- C3: the cache key is a pure deterministic function of the query text and
the filter values: it depends only on the normalized query and on the
`category`/`docName` fields (not on `nResults`); for every query the
canonical digest inputs for `{category:"hr"}`, `{category:"finance"}`, no
filters, and the empty filters object `{}` are pairwise distinct — in
particular supplying a filters object, even an empty one, yields an input
distinct from omitting it — so under any injective digest the corresponding
keys are distinct; with the real truncated SHA-256 digest this is verified
unconditionally at the spec's example query, including the empty-object
asymmetry. -/
theorem generateCacheKey_claim :
    (∀ (q : String) (f1 f2 : SearchFilters), f1.category = f2.category →
      f1.docName = f2.docName →
      generateCacheKey q (some f1) = generateCacheKey q (some f2)) ∧
    (∀ (q1 q2 : String) (f : Option SearchFilters),
      normalizeQuery q1 = normalizeQuery q2 →
      generateCacheKey q1 f = generateCacheKey q2 f) ∧
    (∀ digest : String → String, Function.Injective digest → ∀ q : String,
      generateCacheKeyWith digest q (some ⟨some "hr", none, none⟩) ≠
        generateCacheKeyWith digest q (some ⟨some "finance", none, none⟩) ∧
      generateCacheKeyWith digest q (some ⟨some "hr", none, none⟩) ≠
        generateCacheKeyWith digest q none ∧
      generateCacheKeyWith digest q (some ⟨some "finance", none, none⟩) ≠
        generateCacheKeyWith digest q none) ∧
    (∀ digest : String → String, Function.Injective digest → ∀ q : String,
      generateCacheKeyWith digest q (some emptyFilters) ≠
        generateCacheKeyWith digest q none) ∧
    (generateCacheKey "What is the return policy?" (some ⟨some "hr", none, none⟩) ≠
      generateCacheKey "What is the return policy?" (some ⟨some "finance", none, none⟩) ∧
     generateCacheKey "What is the return policy?" (some ⟨some "hr", none, none⟩) ≠
      generateCacheKey "What is the return policy?" none ∧
     generateCacheKey "What is the return policy?" (some ⟨some "finance", none, none⟩) ≠
      generateCacheKey "What is the return policy?" none ∧
     generateCacheKey "What is the return policy?" (some emptyFilters) ≠
      generateCacheKey "What is the return policy?" none) := by
  have ehr : (((some "hr" : Option String)).getD "").data.length = 2 := rfl
  have efin : (((some "finance" : Option String)).getD "").data.length = 7 := rfl
  have enone : (((none : Option String)).getD "").data.length = 0 := rfl
  refine ⟨?_, ?_, ?_, ?_, by decide, by decide, by decide, by decide⟩
  · intro q f1 f2 h1 h2
    obtain ⟨c1, d1, n1⟩ := f1
    obtain ⟨c2, d2, n2⟩ := f2
    have h1x : c1 = c2 := h1
    have h2x : d1 = d2 := h2
    subst h1x
    subst h2x
    rfl
  · intro q1 q2 f h
    unfold generateCacheKey generateCacheKeyWith
    rw [h]
  · intro digest hinj q
    refine ⟨keysWith_ne_of_input_ne hinj ?_, keysWith_ne_of_input_ne hinj ?_,
      keysWith_ne_of_input_ne hinj ?_⟩
    · intro h
      have hlen : (cacheKeyInput q (some ⟨some "hr", none, none⟩)).data.length =
          (cacheKeyInput q (some ⟨some "finance", none, none⟩)).data.length := by rw [h]
      rw [cacheKeyInput_len_some, cacheKeyInput_len_some] at hlen
      rw [ehr, efin] at hlen
      omega
    · intro h
      have hlen : (cacheKeyInput q (some ⟨some "hr", none, none⟩)).data.length =
          (cacheKeyInput q none).data.length := by rw [h]
      rw [cacheKeyInput_len_some, cacheKeyInput_len_none] at hlen
      omega
    · intro h
      have hlen : (cacheKeyInput q (some ⟨some "finance", none, none⟩)).data.length =
          (cacheKeyInput q none).data.length := by rw [h]
      rw [cacheKeyInput_len_some, cacheKeyInput_len_none] at hlen
      omega
  · intro digest hinj q
    refine keysWith_ne_of_input_ne hinj ?_
    intro h
    have hlen : (cacheKeyInput q (some (⟨none, none, none⟩ : SearchFilters))).data.length =
        (cacheKeyInput q none).data.length := by
      rw [← h]
      rfl
    rw [cacheKeyInput_len_some, cacheKeyInput_len_none] at hlen
    omega

/-- Witness for C3: determinism at a concrete query (independence of
`nResults` and of phrasing), and distinct keys under a concrete injective
digest, including for the empty filters object. -/
theorem generateCacheKey_claim_witness :
    generateCacheKey "return policy" (some ⟨some "hr", none, some 7⟩) =
      generateCacheKey "return policy" (some ⟨some "hr", none, none⟩) ∧
    generateCacheKey "What is the return policy?" none =
      generateCacheKey "return policy what is" none ∧
    generateCacheKeyWith (fun s => s) "q" (some ⟨some "hr", none, none⟩) ≠
      generateCacheKeyWith (fun s => s) "q" none ∧
    generateCacheKeyWith (fun s => s) "q" (some emptyFilters) ≠
      generateCacheKeyWith (fun s => s) "q" none :=
  ⟨generateCacheKey_claim.1 "return policy" _ _ rfl rfl,
   generateCacheKey_claim.2.1 _ _ none (by decide),
   (generateCacheKey_claim.2.2.1 (fun s => s) (fun _ _ h => h) "q").2.1,
   generateCacheKey_claim.2.2.2.1 (fun s => s) (fun _ _ h => h) "q"⟩

/-- C10: inside a supplied filters object an empty-string field is
indistinguishable from an absent one — `category: ""` with any `docName`
gives the same key as omitting `category`, and `{category:"", docName:""}`
gives the same key as `{}` — while a supplied filters object still yields a
key distinct from omitting the object entirely (under any injective digest,
and verified with the real digest at a concrete query). -/
theorem generateCacheKey_emptyField_claim :
    (∀ (q d : String) (n1 n2 : Option Nat),
      generateCacheKey q (some ⟨some "", some d, n1⟩) =
        generateCacheKey q (some ⟨none, some d, n2⟩)) ∧
    (∀ q : String, generateCacheKey q (some ⟨some "", some "", none⟩) =
      generateCacheKey q (some emptyFilters)) ∧
    (∀ digest : String → String, Function.Injective digest → ∀ (q d : String),
      generateCacheKeyWith digest q (some ⟨some "", some d, none⟩) ≠
        generateCacheKeyWith digest q none ∧
      generateCacheKeyWith digest q (some ⟨some "", some "", none⟩) ≠
        generateCacheKeyWith digest q none) ∧
    (generateCacheKey "return policy" (some ⟨some "", some "", none⟩) ≠
      generateCacheKey "return policy" none) := by
  refine ⟨fun q d n1 n2 => rfl, fun q => rfl, ?_, by decide⟩
  intro digest hinj q d
  have eempty : (((some "" : Option String)).getD "").data.length = 0 := rfl
  refine ⟨keysWith_ne_of_input_ne hinj ?_, keysWith_ne_of_input_ne hinj ?_⟩
  · intro h
    have hlen : (cacheKeyInput q (some ⟨some "", some d, none⟩)).data.length =
        (cacheKeyInput q none).data.length := by rw [h]
    rw [cacheKeyInput_len_some, cacheKeyInput_len_none] at hlen
    omega
  · intro h
    have hlen : (cacheKeyInput q (some ⟨some "", some "", none⟩)).data.length =
        (cacheKeyInput q none).data.length := by rw [h]
    rw [cacheKeyInput_len_some, cacheKeyInput_len_none] at hlen
    rw [eempty] at hlen
    omega

/-- Witness for C10: the empty-string/absent equalities at a concrete
document name, and distinctness under a concrete injective digest. -/
theorem generateCacheKey_emptyField_claim_witness :
    generateCacheKey "return policy" (some ⟨some "", some "handbook.pdf", none⟩) =
      generateCacheKey "return policy" (some ⟨none, some "handbook.pdf", some 3⟩) ∧
    generateCacheKeyWith (fun s => s) "q" (some ⟨some "", some "", none⟩) ≠
      generateCacheKeyWith (fun s => s) "q" none :=
  ⟨generateCacheKey_emptyField_claim.1 "return policy" "handbook.pdf" none (some 3),
   (generateCacheKey_emptyField_claim.2.2.1 (fun s => s) (fun _ _ h => h) "q" "").2⟩

/-! Section: Router lemmas -/

theorem generateCacheKey_congr {q1 q2 : String} (f : Option SearchFilters)
    (h : normalizeQuery q1 = normalizeQuery q2) :
    generateCacheKey q1 f = generateCacheKey q2 f := by
  unfold generateCacheKey generateCacheKeyWith
  rw [h]

theorem hybridSearch_ok (backend : SearchBody → Except String FetchResponse)
    (elapsed : Nat) (query : String) (filters : SearchFilters)
    (raw : IngestionSearchResponse)
    (h : vectorSearch backend query { filters with nResults := some 20 } = .ok raw) :
    hybridSearch backend elapsed query filters = .ok
      { query := query
        chunks := (rerank (raw.results.map toSearchChunk)).take (filters.nResults.getD 5)
        searchTimeMs := elapsed
        totalCandidates := raw.total_candidates } := by
  unfold hybridSearch
  rw [h]

theorem getCachedResponse_undecodable (decode : String → Option CachedResponse)
    (cache : List (String × String)) (elapsed : Int) (q : String)
    (f : Option SearchFilters) (m : CacheMetrics) (s : String)
    (h1 : cacheGet cache (generateCacheKey q f) = some s) (h2 : s ≠ "")
    (h3 : decode s = none) :
    getCachedResponse decode cache elapsed q f m =
      (none, { m with errors := m.errors + 1 }) := by
  simp only [getCachedResponse, h1]
  rw [if_neg (by simpa using h2)]
  simp only [h3]

theorem getCachedResponse_hit (decode : String → Option CachedResponse)
    (cache : List (String × String)) (elapsed : Int) (q : String)
    (f : Option SearchFilters) (m : CacheMetrics) (s : String) (entry : CachedResponse)
    (h1 : cacheGet cache (generateCacheKey q f) = some s) (h2 : s ≠ "")
    (h3 : decode s = some entry) :
    getCachedResponse decode cache elapsed q f m =
      (some entry,
       { m with hits := m.hits + 1,
                totalLatencySavedMs := m.totalLatencySavedMs + (3000 - elapsed) }) := by
  simp only [getCachedResponse, h1]
  rw [if_neg (by simpa using h2)]
  simp only [h3]

theorem processQuery_miss_parts (env : Env) (st : St) (request : QueryRequest)
    (raw : IngestionSearchResponse)
    (hmiss : (getCachedResponse env.decode st.cache env.cacheElapsedMs
      request.query request.filters st.metrics).1 = none)
    (hsearch : vectorSearch env.searchBackend request.query
      { request.filters.getD emptyFilters with nResults := some 20 } = .ok raw) :
    (processQuery env st request).1 = .ok
      { answer := generateAnswer env.llmOutcome
          ((rerank (raw.results.map toSearchChunk)).take
            ((request.filters.getD emptyFilters).nResults.getD 5))
        sources := ((rerank (raw.results.map toSearchChunk)).take
            ((request.filters.getD emptyFilters).nResults.getD 5)).map sourceOf
        cached := false
        searchTimeMs := env.searchElapsedMs
        generationTimeMs := env.genElapsedMs
        totalTimeMs := env.totalElapsedMs } ∧
    (processQuery env st request).2.cache =
      (generateCacheKey request.query request.filters,
        env.encode
          { answer := generateAnswer env.llmOutcome
              ((rerank (raw.results.map toSearchChunk)).take
                ((request.filters.getD emptyFilters).nResults.getD 5))
            sources := ((rerank (raw.results.map toSearchChunk)).take
                ((request.filters.getD emptyFilters).nResults.getD 5)).map sourceOf
            cachedAt := env.nowIso
            generationTimeMs := env.genElapsedMs }) :: st.cache := by
  have hhs := hybridSearch_ok env.searchBackend env.searchElapsedMs request.query
    (request.filters.getD emptyFilters) raw hsearch
  constructor
  · simp only [processQuery, hmiss, hhs]
  · simp only [processQuery, hmiss, hhs, setCachedResponse, cacheSet]

theorem processQuery_hit_parts (env : Env) (st : St) (request : QueryRequest)
    (payload : String) (entry : CachedResponse)
    (hget : cacheGet st.cache (generateCacheKey request.query request.filters) = some payload)
    (hne : payload ≠ "") (hdec : env.decode payload = some entry) :
    (processQuery env st request).1 = .ok
      { answer := entry.answer
        sources := entry.sources
        cached := true
        searchTimeMs := 0
        generationTimeMs := entry.generationTimeMs
        totalTimeMs := env.totalElapsedMs } := by
  have hgc := getCachedResponse_hit env.decode st.cache env.cacheElapsedMs
    request.query request.filters st.metrics payload entry hget hne hdec
  simp only [processQuery, hgc]

/-! Section: Claims about the router -/

/-- C5 counterexample: the original claim asserts that a present but
undecodable payload affects the hit/miss counters the same way an absent key
does.  At a concrete state it does not: with the payload `"x"` stored under
the computed key and a decoder that fails, the miss counter stays 0, while
the same call against an empty cache sets it to 1. -/
theorem cacheDecodeFailure_counterexample :
    ¬ ((getCachedResponse (fun _ => none)
          [(generateCacheKey "q" none, "x")] 0 "q" none ⟨0, 0, 0, 0⟩).2.misses =
       (getCachedResponse (fun _ => none) [] 0 "q" none ⟨0, 0, 0, 0⟩).2.misses) := by
  decide

/-- C5 (amended): a present, non-empty, undecodable payload is returned as
`null` with the distinct error counter incremented and the hit/miss counters
left unchanged (unlike an absent key, which increments the miss counter);
the router then proceeds down the miss path. -/
theorem cacheDecodeFailure_claim :
    (∀ (decode : String → Option CachedResponse) (cache : List (String × String))
       (elapsed : Int) (q : String) (f : Option SearchFilters) (m : CacheMetrics)
       (s : String),
      cacheGet cache (generateCacheKey q f) = some s → s ≠ "" → decode s = none →
      getCachedResponse decode cache elapsed q f m =
        (none, { m with errors := m.errors + 1 })) ∧
    (∀ (env : Env) (st : St) (request : QueryRequest) (s : String)
       (raw : IngestionSearchResponse),
      cacheGet st.cache (generateCacheKey request.query request.filters) = some s →
      s ≠ "" → env.decode s = none →
      vectorSearch env.searchBackend request.query
        { request.filters.getD emptyFilters with nResults := some 20 } = .ok raw →
      ∃ resp, (processQuery env st request).1 = .ok resp ∧ resp.cached = false) := by
  constructor
  · exact getCachedResponse_undecodable
  · intro env st request s raw h1 h2 h3 h4
    have hmiss : (getCachedResponse env.decode st.cache env.cacheElapsedMs
        request.query request.filters st.metrics).1 = none := by
      rw [getCachedResponse_undecodable env.decode st.cache env.cacheElapsedMs
        request.query request.filters st.metrics s h1 h2 h3]
    exact ⟨_, (processQuery_miss_parts env st request raw hmiss h4).1, rfl⟩

/-- Witness for C5 (amended): a concrete undecodable payload increments only
the error counter, and the router completes the miss path uncached. -/
theorem cacheDecodeFailure_claim_witness :
    getCachedResponse (fun _ => none) [(generateCacheKey "q" none, "x")] 0 "q" none
        ⟨0, 0, 0, 0⟩ = (none, ⟨0, 0, 0, 1⟩) ∧
    ∃ resp,
      (processQuery
        { searchBackend := fun _ => .ok ⟨true, 200, "", ⟨"q", [], 0, 0⟩⟩
          llmOutcome := .ok (some "hello")
          encode := fun _ => "E"
          decode := fun _ => none
          cacheElapsedMs := 0
          searchElapsedMs := 2
          genElapsedMs := 7
          totalElapsedMs := 9
          nowIso := "t" }
        ⟨[(generateCacheKey "q" none, "x")], [], ⟨0, 0, 0, 0⟩⟩
        ⟨"q", none, none, none⟩).1 = .ok resp ∧ resp.cached = false :=
  ⟨cacheDecodeFailure_claim.1 (fun _ => none) _ 0 "q" none ⟨0, 0, 0, 0⟩ "x"
      (by decide) (by decide) rfl,
   cacheDecodeFailure_claim.2 _ _ ⟨"q", none, none, none⟩ "x" ⟨"q", [], 0, 0⟩
      (by decide) (by decide) rfl rfl⟩

/-- C8: a failing backend call, or a non-success response, is raised by
`vectorSearch`/`hybridSearch` as a retrieval failure with an attributable
message, and `processQuery` propagates the error unchanged with no fallback
answer, performing no cache write and no conversation-history write. -/
theorem processQuery_searchFailure_claim :
    (∀ (backend : SearchBody → Except String FetchResponse) (query : String)
       (filters : SearchFilters) (r : FetchResponse),
      backend (searchBodyOf query filters) = .ok r → r.ok = false →
      vectorSearch backend query filters =
        .error ("Ingestion service search failed (" ++ toString r.status ++ "): "
          ++ r.errText)) ∧
    (∀ (backend : SearchBody → Except String FetchResponse) (elapsed : Nat)
       (query : String) (filters : SearchFilters) (e : String),
      vectorSearch backend query { filters with nResults := some 20 } = .error e →
      hybridSearch backend elapsed query filters = .error e) ∧
    (∀ (env : Env) (st : St) (request : QueryRequest) (e : String),
      (getCachedResponse env.decode st.cache env.cacheElapsedMs
        request.query request.filters st.metrics).1 = none →
      vectorSearch env.searchBackend request.query
        { request.filters.getD emptyFilters with nResults := some 20 } = .error e →
      (processQuery env st request).1 = .error e ∧
      (processQuery env st request).2.cache = st.cache ∧
      (processQuery env st request).2.history = st.history) := by
  refine ⟨?_, ?_, ?_⟩
  · intro backend query filters r h1 h2
    unfold vectorSearch
    simp only [h1]
    rw [if_neg (by simp [h2])]
  · intro backend elapsed query filters e h
    unfold hybridSearch
    rw [h]
  · intro env st request e h1 h2
    have hhs : hybridSearch env.searchBackend env.searchElapsedMs request.query
        (request.filters.getD emptyFilters) = .error e := by
      unfold hybridSearch
      rw [h2]
    refine ⟨?_, ?_, ?_⟩ <;> simp only [processQuery, h1, hhs]

/-- Witness for C8: a concrete transport failure propagates through
`processQuery` with the cache and history untouched. -/
theorem processQuery_searchFailure_claim_witness :
    vectorSearch (fun _ => .ok ⟨false, 503, "overloaded", ⟨"q", [], 0, 0⟩⟩) "q"
        emptyFilters =
      .error ("Ingestion service search failed (" ++ toString 503 ++ "): "
        ++ "overloaded") ∧
    ((processQuery
        { searchBackend := fun _ => .error "down"
          llmOutcome := .ok (some "hello")
          encode := fun _ => "E"
          decode := fun _ => none
          cacheElapsedMs := 0
          searchElapsedMs := 2
          genElapsedMs := 7
          totalElapsedMs := 9
          nowIso := "t" }
        ⟨[], [], ⟨0, 0, 0, 0⟩⟩ ⟨"q", none, none, none⟩).1 = .error "down" ∧
     (processQuery
        { searchBackend := fun _ => .error "down"
          llmOutcome := .ok (some "hello")
          encode := fun _ => "E"
          decode := fun _ => none
          cacheElapsedMs := 0
          searchElapsedMs := 2
          genElapsedMs := 7
          totalElapsedMs := 9
          nowIso := "t" }
        ⟨[], [], ⟨0, 0, 0, 0⟩⟩ ⟨"q", none, none, none⟩).2.cache = [] ∧
     (processQuery
        { searchBackend := fun _ => .error "down"
          llmOutcome := .ok (some "hello")
          encode := fun _ => "E"
          decode := fun _ => none
          cacheElapsedMs := 0
          searchElapsedMs := 2
          genElapsedMs := 7
          totalElapsedMs := 9
          nowIso := "t" }
        ⟨[], [], ⟨0, 0, 0, 0⟩⟩ ⟨"q", none, none, none⟩).2.history = []) :=
  ⟨processQuery_searchFailure_claim.1 _ "q" emptyFilters ⟨false, 503, "overloaded", ⟨"q", [], 0, 0⟩⟩
      rfl rfl,
   processQuery_searchFailure_claim.2.2 _ ⟨[], [], ⟨0, 0, 0, 0⟩⟩ ⟨"q", none, none, none⟩
      "down" (by decide) rfl⟩

/-- C9: under a healthy cache, after `processQuery` completes a miss for
some query and filters (the backend call succeeding, the written payload
non-empty and decoding back to what was written), a second call with the
same filters and a query with the same normalized key returns the cache-hit
flag set, the answer and sources stored at write time, a search time of
zero, and the generation time stored at write time (nonzero whenever the
recorded generation time was). -/
theorem processQuery_idempotent_claim
    (env1 env2 : Env) (st0 : St) (req1 req2 : QueryRequest)
    (raw : IngestionSearchResponse) (resp1 : QueryResponse)
    (hmiss : (getCachedResponse env1.decode st0.cache env1.cacheElapsedMs
      req1.query req1.filters st0.metrics).1 = none)
    (hsearch : vectorSearch env1.searchBackend req1.query
      { req1.filters.getD emptyFilters with nResults := some 20 } = .ok raw)
    (hout : (processQuery env1 st0 req1).1 = .ok resp1)
    (hq : normalizeQuery req2.query = normalizeQuery req1.query)
    (hf : req2.filters = req1.filters)
    (hrt : env2.decode (env1.encode
        ⟨resp1.answer, resp1.sources, env1.nowIso, env1.genElapsedMs⟩) =
      some ⟨resp1.answer, resp1.sources, env1.nowIso, env1.genElapsedMs⟩)
    (henc : env1.encode
        ⟨resp1.answer, resp1.sources, env1.nowIso, env1.genElapsedMs⟩ ≠ "") :
    ∃ resp2, (processQuery env2 (processQuery env1 st0 req1).2 req2).1 = .ok resp2 ∧
      resp2.cached = true ∧
      resp2.answer = resp1.answer ∧
      resp2.sources = resp1.sources ∧
      resp2.searchTimeMs = 0 ∧
      resp2.generationTimeMs = env1.genElapsedMs ∧
      (env1.genElapsedMs ≠ 0 → resp2.generationTimeMs ≠ 0) := by
  obtain ⟨hfst, hcache⟩ := processQuery_miss_parts env1 st0 req1 raw hmiss hsearch
  have hresp : resp1 =
      { answer := generateAnswer env1.llmOutcome
          ((rerank (raw.results.map toSearchChunk)).take
            ((req1.filters.getD emptyFilters).nResults.getD 5)),
        sources := ((rerank (raw.results.map toSearchChunk)).take
          ((req1.filters.getD emptyFilters).nResults.getD 5)).map sourceOf,
        cached := false,
        searchTimeMs := env1.searchElapsedMs,
        generationTimeMs := env1.genElapsedMs,
        totalTimeMs := env1.totalElapsedMs } :=
    Except.ok.inj (hout.symm.trans hfst)
  have hkey : generateCacheKey req2.query req2.filters =
      generateCacheKey req1.query req1.filters := by
    rw [hf]
    exact generateCacheKey_congr req1.filters hq
  have hget : cacheGet (processQuery env1 st0 req1).2.cache
      (generateCacheKey req2.query req2.filters) =
      some (env1.encode ⟨resp1.answer, resp1.sources, env1.nowIso, env1.genElapsedMs⟩) := by
    rw [hkey, hcache]
    show List.lookup _ _ = _
    rw [List.lookup_cons_self]
    subst hresp
    rfl
  have hhit := processQuery_hit_parts env2 (processQuery env1 st0 req1).2 req2
    (env1.encode ⟨resp1.answer, resp1.sources, env1.nowIso, env1.genElapsedMs⟩)
    ⟨resp1.answer, resp1.sources, env1.nowIso, env1.genElapsedMs⟩ hget henc hrt
  exact ⟨_, hhit, rfl, rfl, rfl, rfl, rfl, fun h => h⟩

/-- Witness for C9: a concrete miss followed by a hit on the same query. -/
theorem processQuery_idempotent_claim_witness :
    ∃ resp2,
      (processQuery
        { searchBackend := fun _ => .ok ⟨true, 200, "", ⟨"q", [], 0, 0⟩⟩
          llmOutcome := .ok (some "hello")
          encode := fun _ => "E"
          decode := fun _ => some ⟨"hello", [], "t", 7⟩
          cacheElapsedMs := 0
          searchElapsedMs := 2
          genElapsedMs := 7
          totalElapsedMs := 9
          nowIso := "t" }
        (processQuery
          { searchBackend := fun _ => .ok ⟨true, 200, "", ⟨"q", [], 0, 0⟩⟩
            llmOutcome := .ok (some "hello")
            encode := fun _ => "E"
            decode := fun _ => some ⟨"hello", [], "t", 7⟩
            cacheElapsedMs := 0
            searchElapsedMs := 2
            genElapsedMs := 7
            totalElapsedMs := 9
            nowIso := "t" }
          ⟨[], [], ⟨0, 0, 0, 0⟩⟩ ⟨"q", none, none, none⟩).2
        ⟨"q", none, none, none⟩).1 = .ok resp2 ∧
      resp2.cached = true ∧
      resp2.answer = QueryResponse.answer ⟨"hello", [], false, 2, 7, 9⟩ ∧
      resp2.sources = QueryResponse.sources ⟨"hello", [], false, 2, 7, 9⟩ ∧
      resp2.searchTimeMs = 0 ∧
      resp2.generationTimeMs = 7 ∧
      (7 ≠ 0 → resp2.generationTimeMs ≠ 0) := by
  have hdec : (fun _ => some (⟨"hello", [], "t", 7⟩ : CachedResponse) :
      String → Option CachedResponse)
      ((fun _ => "E" : CachedResponse → String)
        ⟨QueryResponse.answer ⟨"hello", [], false, 2, 7, 9⟩,
         QueryResponse.sources ⟨"hello", [], false, 2, 7, 9⟩, "t", 7⟩) =
      some ⟨QueryResponse.answer ⟨"hello", [], false, 2, 7, 9⟩,
        QueryResponse.sources ⟨"hello", [], false, 2, 7, 9⟩, "t", 7⟩ := rfl
  exact processQuery_idempotent_claim _ _ ⟨[], [], ⟨0, 0, 0, 0⟩⟩
    ⟨"q", none, none, none⟩ ⟨"q", none, none, none⟩ ⟨"q", [], 0, 0⟩
    ⟨"hello", [], false, 2, 7, 9⟩ (by decide) rfl rfl rfl rfl hdec (by decide)

end Rag
